import Mathlib

/-!
Verification of the backend service in `Round-3/backend/app.py`
(upload ingestion, structured-output recovery pipeline, schema assemblers).

Strings are modelled as Lean `String`s, i.e. lists of unicode code points,
matching Python's code-point view of `str`; Python's character classes
(`str.isalnum`, whitespace, `str.lower`) are modelled on the ASCII range,
which covers every literal the program manipulates.  `json.loads` is
modelled on the subset of flat JSON objects with escape-free string keys
and string values; inputs outside that subset are treated as parse
failures, which only routes the embedding into the fallback branches the
real code also reaches for non-object input.
-/

namespace AppPy

/-- ASCII model of Python whitespace (as stripped by `str.strip()`). -/
def pyWs (c : Char) : Bool :=
  c = ' ' || c = '\t' || c = '\n' || c = '\r'

/-- Remove leading whitespace from a character list (Python `str.lstrip()`). -/
def pyLstripList (l : List Char) : List Char := l.dropWhile pyWs

/-- Remove trailing whitespace from a character list (Python `str.rstrip()`). -/
def pyRstripList (l : List Char) : List Char := (l.reverse.dropWhile pyWs).reverse

/-- Python `str.strip()`. -/
def pyStrip (s : String) : String := ⟨pyRstripList (pyLstripList s.data)⟩

/-- Python `str.rstrip()`. -/
def pyRstrip (s : String) : String := ⟨pyRstripList s.data⟩

/-- Python `str.strip(chars)`: remove the given characters from both ends. -/
def pyStripChars (cs : List Char) (s : String) : String :=
  ⟨((s.data.dropWhile (· ∈ cs)).reverse.dropWhile (· ∈ cs)).reverse⟩

/-- Python `s.startswith(pre)`. -/
def pyStartsWith (s pre : String) : Bool := pre.data.isPrefixOf s.data

/-- Python `s.endswith(suf)`. -/
def pyEndsWith (s suf : String) : Bool := suf.data.isSuffixOf s.data

/-- Substring containment on character lists. -/
def listContainsSub (sub : List Char) : List Char → Bool
  | [] => sub.isEmpty
  | c :: rest => sub.isPrefixOf (c :: rest) || listContainsSub sub rest

/-- Python `sub in s` (substring containment). -/
def pyContains (s sub : String) : Bool := listContainsSub sub.data s.data

/-- Python `s.lower()` (ASCII model). -/
def pyLower (s : String) : String := ⟨s.data.map Char.toLower⟩

/-- Python `s[:n]` (first `n` code points). -/
def pyTake (s : String) (n : Nat) : String := ⟨s.data.take n⟩

/-- Python `s[n:]` (drop the first `n` code points). -/
def pyDrop (s : String) (n : Nat) : String := ⟨s.data.drop n⟩

/-- ASCII model of Python `str.isalnum` for a single character. -/
def pyIsAlnum (c : Char) : Bool := c.isAlpha || c.isDigit

/-- Index of the first occurrence of a character (Python `s.find(c)`,
with `None` in place of `-1`). -/
def findCharAux (c : Char) : List Char → Option Nat
  | [] => none
  | x :: xs => if x = c then some 0 else (findCharAux c xs).map (· + 1)

/-- Python `s.find(c)` as an `Option`. -/
def pyFindChar (s : String) (c : Char) : Option Nat := findCharAux c s.data

/-- Python `s.rfind(c)` as an `Option`. -/
def pyRfindChar (s : String) (c : Char) : Option Nat :=
  (findCharAux c s.data.reverse).map (fun i => s.data.length - 1 - i)

/-- Fuel-driven worker for Python `str.split(sep)`: scan left to right,
cutting at each non-overlapping occurrence of `sep` and keeping empty
pieces, exactly as Python does for a non-empty separator. -/
def pySplitAux (sep : List Char) : Nat → List Char → List Char → List (List Char)
  | 0, acc, _ => [acc.reverse]
  | fuel + 1, acc, l =>
    match l with
    | [] => [acc.reverse]
    | c :: rest =>
      if sep.isPrefixOf l then
        acc.reverse :: pySplitAux sep fuel [] (l.drop sep.length)
      else
        pySplitAux sep fuel (c :: acc) rest

/-- Python `s.split(sep)` for a non-empty separator. -/
def pySplit (s sep : String) : List String :=
  (pySplitAux sep.data (s.data.length + 1) [] s.data).map (fun l => ⟨l⟩)

/-! ## Upload ingestor (`app.py` lines 76-97) -/

/-- The character filter of `app.py` line 83: keep alphanumerics and the
characters `.`, `_`, `-`. -/
def sanitizeKeep (c : Char) : Bool := pyIsAlnum c || c ∈ ['.', '_', '-']

/-- `app.py` lines 82-85: `safe_filename = "".join(c for c in file.filename
if c.isalnum() or c in "._-").rstrip()`, then append `".pdf"` when the
result does not already end with it. -/
def sanitizeFilename (s : String) : String :=
  let kept := pyRstrip ⟨s.data.filter sanitizeKeep⟩
  if pyEndsWith kept ".pdf" then kept else kept ++ ".pdf"

/-- `await file.read(8192)` chunk size (`app.py` line 92). -/
def chunkSize : Nat := 8192

/-- The 50 MiB upload ceiling (`app.py` line 94: `50 * 1024 * 1024`). -/
def sizeLimit : Nat := 50 * 1024 * 1024

/-- Outcome of the upload write loop: the final value of `file_size`, the
total number of bytes handed to `buffer.write`, and whether a file remains
at the target path afterwards.  `failure 413` models the
`save_path.unlink(...)` followed by `HTTPException(status_code=413, ...)`. -/
inductive UploadResult where
  | success (fileSize bytesWritten : Nat) (fileOnDisk : Bool)
  | failure (status : Nat) (bytesWritten : Nat) (fileOnDisk : Bool)
deriving DecidableEq

/-- `app.py` lines 90-97: read chunks, add each chunk's length to
`file_size`, abort (deleting the file) when the running count exceeds the
ceiling, and only otherwise write the chunk.  A chunk is represented by
its byte length; the stream ends when `file.read` returns an empty chunk,
so the chunk list holds the non-empty reads in order. -/
def ingestLoop : List Nat → Nat → Nat → UploadResult
  | [], fileSize, written => .success fileSize written true
  | c :: rest, fileSize, written =>
    let fs := fileSize + c
    if sizeLimit < fs then .failure 413 written false
    else ingestLoop rest fs (written + c)

/-- The upload write loop started on a fresh (empty) target file. -/
def uploadIngest (chunks : List Nat) : UploadResult := ingestLoop chunks 0 0

/-- Bytes ever written to the target file in an outcome. -/
def bytesWrittenOf : UploadResult → Nat
  | .success _ w _ => w
  | .failure _ w _ => w

/-- Whether a file remains at the target path in an outcome. -/
def fileOnDiskOf : UploadResult → Bool
  | .success _ _ b => b
  | .failure _ _ b => b

/-! ## Recovery pipeline: fence stripping, brace slicing (`app.py`
lines 202-219 and 402-410) -/

/-- `app.py` lines 205-210 (and identically 405-410): if the text starts
with a fenced block marker, split on the fence delimiter, take the second
piece, and drop a leading `json` language tag. -/
def stripFences (s : String) : String :=
  if pyStartsWith s "```" then
    let parts := pySplit s "```"
    if 2 ≤ parts.length then
      let p := parts.getD 1 ""
      if pyStartsWith p "json" then pyDrop p 4 else p
    else s
  else s

/-- `app.py` lines 214-219: when the text does not begin with an opening
brace, locate the first `\x7b` and the last `\x7d` and slice the substring
between them inclusively (`response_text[start:end]` with
`end = rfind + 1`), leaving the text unchanged when the slice bounds are
absent or inverted. -/
def braceSlice (s : String) : String :=
  if pyStartsWith s "\x7b" then s
  else
    match pyFindChar s '\x7b', pyRfindChar s '\x7d' with
    | some st, some en =>
      if st < en + 1 then ⟨(s.data.drop st).take (en + 1 - st)⟩ else s
    | some _, none => s
    | none, _ => s

/-- The string handed to `json.loads` at the insight call site
(`app.py` lines 202-222): strip, fence-strip, strip again, brace-slice. -/
def insightCandidate (raw : String) : String :=
  braceSlice (pyStrip (stripFences (pyStrip raw)))

/-- The string handed to `json.loads` at the podcast call site
(`app.py` lines 402-413): strip and fence-strip only — the podcast
handler performs no brace slicing. -/
def podcastCandidate (raw : String) : String :=
  stripFences (pyStrip raw)

/-! ## Strict parse: `json.loads` modelled on flat string objects -/

/-- Whitespace skipped by the JSON parser. -/
def jskipWs (l : List Char) : List Char :=
  l.dropWhile (fun c => c = ' ' || c = '\t' || c = '\n' || c = '\r')

/-- Parse the remainder of a JSON string literal (no escape support;
a backslash makes the parse fail). -/
def jparseStringAux : List Char → Option (List Char × List Char)
  | [] => none
  | c :: rest =>
    if c = '"' then some ([], rest)
    else if c = '\\' then none
    else (jparseStringAux rest).map (fun p => (c :: p.1, p.2))

/-- Parse a JSON string literal. -/
def jparseStringLit (l : List Char) : Option (String × List Char) :=
  match l with
  | '"' :: rest => (jparseStringAux rest).map (fun p => (⟨p.1⟩, p.2))
  | _ => none

/-- Parse `"key": "value"` members separated by commas, up to the closing
brace. -/
def jparseMembers : Nat → List Char → Option (List (String × String) × List Char)
  | 0, _ => none
  | fuel + 1, l =>
    match jparseStringLit (jskipWs l) with
    | none => none
    | some (k, rest) =>
      match jskipWs rest with
      | ':' :: rest2 =>
        match jparseStringLit (jskipWs rest2) with
        | none => none
        | some (v, rest3) =>
          match jskipWs rest3 with
          | ',' :: rest4 => (jparseMembers fuel rest4).map (fun p => ((k, v) :: p.1, p.2))
          | '\x7d' :: rest4 => some ([(k, v)], rest4)
          | _ => none
      | _ => none

/-- Model of `json.loads` restricted to flat objects with escape-free
string keys and string values; every other input is a parse failure. -/
def flatJsonParse (s : String) : Option (List (String × String)) :=
  match jskipWs s.data with
  | '\x7b' :: rest =>
    match jskipWs rest with
    | '\x7d' :: tail => if (jskipWs tail).isEmpty then some [] else none
    | r =>
      match jparseMembers (r.length + 1) r with
      | some (kvs, tail) => if (jskipWs tail).isEmpty then some kvs else none
      | none => none
  | _ => none

/-- Python `dict.get(k, "")` for a parsed object (later duplicate keys win,
as in Python's dict construction). -/
def jsonGetStr (kvs : List (String × String)) (k : String) : String :=
  (((kvs.reverse.find? (fun p => p.1 == k)).map (fun p => p.2)).getD "")

/-! ## Heuristic line scan (`app.py` lines 224-269) -/

/-- The two fields of the insight schema. -/
inductive IField where
  | insight
  | recommendation
deriving DecidableEq

/-- State of the line scan: the `result` dict (initialised to empty
strings at line 228) plus the `current_field` / `current_value` cursor. -/
structure ScanState where
  resInsight : String
  resRecommendation : String
  currentField : Option IField
  currentValue : String
deriving DecidableEq

/-- `result = {"insight": "", "recommendation": ""}` with no cursor. -/
def initScanState : ScanState :=
  { resInsight := "", resRecommendation := "", currentField := none,
    currentValue := "" }

/-- `result[current_field] = v`. -/
def setField (st : ScanState) (f : IField) (v : String) : ScanState :=
  match f with
  | .insight => { st with resInsight := v }
  | .recommendation => { st with resRecommendation := v }

/-- `if current_field and current_value: result[current_field] =
current_value.strip()` (`app.py` lines 241-242, 251-252, 268-269). -/
def flushState (st : ScanState) : ScanState :=
  match st.currentField with
  | some f =>
    if st.currentValue ≠ "" then setField st f (pyStrip st.currentValue) else st
  | none => st

/-- Detection keywords for the insight field (`app.py` line 240). -/
def insightKeywords : List String :=
  ["insight:", "\"insight\":", "analysis:", "summary:"]

/-- Detection keywords for the recommendation field (`app.py` line 250). -/
def recommendationKeywords : List String :=
  ["recommendation:", "\"recommendation\":", "action:", "suggest:"]

/-- `any(x in line.lower() for x in keywords)`. -/
def lineMatches (line : String) (kws : List String) : Bool :=
  kws.any (fun k => pyContains (pyLower line) k)

/-- `chunk.strip().strip(quote).strip(comma)` — the cleanup applied to
every value piece (`app.py` lines 247, 257, 263, 265). -/
def cleanChunk (s : String) : String :=
  pyStripChars [','] (pyStripChars ['"'] (pyStrip s))

/-- `app.py` lines 245-249 and 255-259: take the text after the first
colon on the line, cleaned; empty when the line has no colon. -/
def extractAfterColon (line : String) : String :=
  match pyFindChar line ':' with
  | some idx => cleanChunk (pyDrop line (idx + 1))
  | none => ""

/-- One iteration of the scan loop (`app.py` lines 234-265). -/
def scanLine (st : ScanState) (rawLine : String) : ScanState :=
  let line := pyStrip rawLine
  if line = "" then st
  else if lineMatches line insightKeywords then
    let st' := flushState st
    { st' with currentField := some .insight,
               currentValue := extractAfterColon line }
  else if lineMatches line recommendationKeywords then
    let st' := flushState st
    { st' with currentField := some .recommendation,
               currentValue := extractAfterColon line }
  else
    match st.currentField with
    | some _ =>
      let chunk := cleanChunk line
      if st.currentValue ≠ "" then
        { st with currentValue := st.currentValue ++ " " ++ chunk }
      else
        { st with currentValue := chunk }
    | none => st

/-- `app.py` lines 224-269: split the raw model text on newlines, fold the
scan loop over the lines, and flush the last accumulated value. -/
def heuristicScan (raw : String) : String × String :=
  let st := (pySplit raw "\n").foldl scanLine initScanState
  let st := flushState st
  (st.resInsight, st.resRecommendation)

/-! ## Insight assembler (`app.py` lines 202-303) -/

/-- Declared default for the insight field (`app.py` line 290). -/
def defaultInsight : String :=
  "Unable to extract clear insights from the selected text."

/-- Declared default for the recommendation field (`app.py` line 292). -/
def defaultRecommendation : String :=
  "Please review the content and consider its practical applications."

/-- `app.py` lines 294-298: `if len(v) > cap: v = v[:cap] + "..."`. -/
def truncateField (s : String) (cap : Nat) : String :=
  if cap < s.length then pyTake s cap ++ "..." else s

/-- `app.py` lines 286-298 for one field: strip the recovered value,
substitute the default when the result is empty, then truncate. -/
def finalizeField (raw dflt : String) (cap : Nat) : String :=
  truncateField (if pyStrip raw = "" then dflt else pyStrip raw) cap

/-- `app.py` lines 286-303: post-processing of both fields. -/
def finalizeInsight (i r : String) : String × String :=
  (finalizeField i defaultInsight 500, finalizeField r defaultRecommendation 300)

/-- `app.py` lines 202-279: recover the two raw field values from the
model text — strict parse of the sliced candidate, else the heuristic
line scan over the original text, else the whole-response last resort of
lines 272-279. -/
def extractInsight (raw : String) : String × String :=
  match flatJsonParse (insightCandidate raw) with
  | some kvs => (jsonGetStr kvs "insight", jsonGetStr kvs "recommendation")
  | none =>
    let p := heuristicScan raw
    if p.1 = "" && p.2 = "" then
      let rt := pyStrip raw
      if 100 < rt.length then
        (pyTake rt 300 ++ "...", "Please review the content for actionable steps.")
      else
        (rt, "Consider the implications of this content.")
    else p

/-- The full insight assembler: recovery followed by post-processing. -/
def assembleInsight (raw : String) : String × String :=
  finalizeInsight (extractInsight raw).1 (extractInsight raw).2

/-! ## Request handlers (`app.py` lines 143-320 and 323-524) -/

/-- A Python exception relevant to the handlers: a raised
`HTTPException(status, detail)` or any other exception with its message. -/
inductive PyErr where
  | httpExc (status : Nat) (detail : String)
  | other (msg : String)
deriving DecidableEq

/-- `str(e)`: FastAPI's `HTTPException` renders as `"status: detail"`. -/
def pyErrStr : PyErr → String
  | .httpExc status detail => toString status ++ ": " ++ detail
  | .other msg => msg

/-- Response of the insight endpoint: either a propagated `HTTPException`
or a JSON body with status, optional error message and the two fields. -/
inductive InsightResp where
  | http (status : Nat) (detail : String)
  | json (status : Nat) (errMsg : Option String) (insight recommendation : String)
deriving DecidableEq

/-- The `try:` body of `get_insights` (`app.py` lines 151-306): reject
empty or whitespace-only text with `HTTPException(400)`, fail when the
model call fails (`modelOut = none`), otherwise assemble the result from
the raw model text. -/
def getInsightsCore (text : String) (modelOut : Option String) :
    Except PyErr (String × String) :=
  if text = "" || pyStrip text = "" then
    .error (.httpExc 400 "Text cannot be empty")
  else
    match modelOut with
    | none => .error (.other "model generation failed")
    | some raw => .ok (assembleInsight raw)

/-- `get_insights` (`app.py` lines 143-320).  The `except Exception`
handler at line 308 has no preceding `except HTTPException: raise`, so a
raised `HTTPException` is also converted into the 500 fallback JSON
response of lines 313-320. -/
def getInsights (defaultModel : Option String) (text : String)
    (modelOut : Option String) : InsightResp :=
  match defaultModel with
  | none => .http 500 "No available Gemini model found. Please check your API key."
  | some _ =>
    match getInsightsCore text modelOut with
    | .ok p => .json 200 none p.1 p.2
    | .error e =>
      .json 500 (some ("Failed to generate insights: " ++ pyErrStr e))
        "Unable to analyze the selected text due to a processing error."
        "Please try selecting a different text segment or refresh the page."

/-! ## Podcast assembler (`app.py` lines 323-524) -/

/-- One conversation turn; `timestamp = none` models a parsed exchange
dict with no `"timestamp"` key. -/
structure Exchange where
  speaker : String
  text : String
  timestamp : Option String
deriving DecidableEq

/-- Decimal digits of a natural number (fuel-driven so that concrete
values compute by kernel reduction). -/
def natDigitsAux : Nat → Nat → List Char
  | 0, _ => []
  | fuel + 1, n =>
    if n < 10 then [Nat.digitChar n]
    else natDigitsAux fuel (n / 10) ++ [Nat.digitChar (n % 10)]

/-- Decimal rendering of a natural number (Python `str(n)` for `n ≥ 0`). -/
def natDigits (n : Nat) : List Char := natDigitsAux (n + 1) n

/-- Python `f"{n:02d}"`: decimal digits, zero-padded to width two. -/
def pad2 (n : Nat) : List Char :=
  if n < 10 then ['0', Nat.digitChar n] else natDigits n

/-- `app.py` lines 481-485: the timestamp synthesized for the exchange at
position `i`: `seconds = i * 25`, then `f"{seconds // 60:02d}:{seconds %
60:02d}"`. -/
def synthTimestamp (i : Nat) : String :=
  let seconds := i * 25
  let minutes := seconds / 60
  let secs := seconds % 60
  ⟨pad2 minutes ++ ':' :: pad2 secs⟩

/-- `if "timestamp" not in item: item["timestamp"] = ...` for the item at
position `i` (`app.py` lines 480-485). -/
def backfill (i : Nat) (e : Exchange) : Exchange :=
  match e.timestamp with
  | none => { e with timestamp := some (synthTimestamp i) }
  | some _ => e

/-- The `for i, item in enumerate(conversation)` loop of lines 479-485,
started at index `k`. -/
def enhanceFrom : Nat → List Exchange → List Exchange
  | _, [] => []
  | i, e :: rest => backfill i e :: enhanceFrom (i + 1) rest

/-- `app.py` lines 477-485: backfill missing timestamps by position. -/
def enhanceConversation (conv : List Exchange) : List Exchange :=
  enhanceFrom 0 conv

/-- The shape of a successfully parsed podcast dict, as consumed by the
required-field check of lines 472-475: presence of the `"title"` and
`"duration_estimate"` keys, and the `"conversation"` value when that key
is present. -/
structure PodcastDict where
  hasTitle : Bool
  hasDuration : Bool
  conversation : Option (List Exchange)
deriving DecidableEq

/-- The fallback script built when `json.loads` fails for the podcast
response (`app.py` lines 419-466): eight fixed exchanges referencing the
caller-supplied insight and recommendation, all carrying timestamps. -/
def fallbackDict (insight recommendation : String) : PodcastDict :=
  { hasTitle := true, hasDuration := true,
    conversation := some [
      ⟨"Alex", "Welcome everyone! Today we\x27re diving into some fascinating content. Here\x27s what caught my attention: " ++ pyTake insight 150, some "00:00"⟩,
      ⟨"Sam", "That\x27s a really insightful observation, Alex. What I find particularly valuable is the practical angle here.", some "00:25"⟩,
      ⟨"Alex", "Exactly! The analysis reveals some deeper patterns that aren\x27t immediately obvious on first reading.", some "00:45"⟩,
      ⟨"Sam", "And speaking of practical applications, here\x27s what I think our listeners should consider: " ++ pyTake recommendation 150, some "01:10"⟩,
      ⟨"Alex", "That\x27s such an actionable takeaway, Sam. It bridges the gap between understanding and actually doing something about it.", some "01:40"⟩,
      ⟨"Sam", "Absolutely. Sometimes the most valuable insights come from taking a step back and looking at the bigger picture.", some "02:05"⟩,
      ⟨"Alex", "This type of content analysis really shows how much depth there is in seemingly straightforward material.", some "02:30"⟩,
      ⟨"Sam", "Thanks for joining us in this analysis, everyone. The key is to not just consume content, but to actively engage with it.", some "02:55"⟩] }

/-- The fallback conversation of the outer `except` handler
(`app.py` lines 495-524): four fixed exchanges. -/
def errFallbackConversation (insight recommendation : String) : List Exchange :=
  [⟨"Alex", "I apologize, but we\x27re experiencing some technical difficulties generating the full podcast discussion.", some "00:00"⟩,
   ⟨"Sam", "However, we can still discuss the key insights from your selected text and provide valuable recommendations.", some "00:20"⟩,
   ⟨"Alex", "The main insight we gathered is: " ++ (if insight ≠ "" then insight else "The content contains valuable information worth analyzing."), some "00:40"⟩,
   ⟨"Sam", "And our recommendation would be: " ++ (if recommendation ≠ "" then recommendation else "Consider how this information applies to your specific context."), some "01:05"⟩]

/-- Response of the podcast endpoint.  `okScript` carries the enhanced
conversation of the 200 response (title and duration pass through the
handler untouched); `fallback` carries a 500 JSON body with an error
message and a literal conversation. -/
inductive PodcastResp where
  | http (status : Nat) (detail : String)
  | okScript (conversation : List Exchange)
  | fallback (status : Nat) (errMsg : String) (conversation : List Exchange)
deriving DecidableEq

/-- The message of the `ValueError` raised by the required-field check
(`app.py` lines 472-475), for the first missing field. -/
def missingFieldMsg (d : PodcastDict) : String :=
  if !d.hasTitle then "Missing required field: title"
  else if !d.hasDuration then "Missing required field: duration_estimate"
  else "Missing required field: conversation"

/-- `generate_podcast` (`app.py` lines 323-524).  `modelOut = none` models
a failing model call; `some none` a model text whose `json.loads` fails
(replaced by the eight-exchange fallback dict); `some (some d)` a parsed
dict `d`.  As in `get_insights`, the `except Exception` at line 490 also
catches the `HTTPException(400)` of line 334, producing the 500 fallback
body of lines 495-524. -/
def generatePodcast (defaultModel : Option String)
    (text insight recommendation : String)
    (modelOut : Option (Option PodcastDict)) : PodcastResp :=
  match defaultModel with
  | none => .http 500 "No available Gemini model found. Please check your API key."
  | some _ =>
    if text = "" || pyStrip text = "" then
      .fallback 500 ("Failed to generate podcast: " ++ pyErrStr (.httpExc 400 "Text cannot be empty"))
        (errFallbackConversation insight recommendation)
    else
      match modelOut with
      | none =>
        .fallback 500 "Failed to generate podcast: model generation failed"
          (errFallbackConversation insight recommendation)
      | some parsed =>
        let result := match parsed with
          | none => fallbackDict insight recommendation
          | some d => d
        if result.hasTitle && result.hasDuration && result.conversation.isSome then
          .okScript (enhanceConversation (result.conversation.getD []))
        else
          .fallback 500 ("Failed to generate podcast: " ++ missingFieldMsg result)
            (errFallbackConversation insight recommendation)

/-! ## Timestamp well-formedness -/

/-- Split a character list at its first colon. -/
def splitAtColon : List Char → Option (List Char × List Char)
  | [] => none
  | c :: rest =>
    if c = ':' then some ([], rest)
    else (splitAtColon rest).map (fun p => (c :: p.1, p.2))

/-- Value of a two-character digit pair (60, i.e. out of range, on any
other shape). -/
def twoDigitVal : List Char → Nat
  | [a, b] => 10 * (a.toNat - 48) + (b.toNat - 48)
  | _ => 60

/-- A well-formed `"MM:SS"` timestamp: at least two digits of minutes, a
colon, exactly two digits of seconds with value below 60. -/
def isWellFormedMMSS (s : String) : Bool :=
  match splitAtColon s.data with
  | some (m, sec) =>
    decide (2 ≤ m.length) && m.all Char.isDigit &&
    decide (sec.length = 2) && sec.all Char.isDigit &&
    decide (twoDigitVal sec < 60)
  | none => false

/-- Concrete raw model text wrapping a valid flat object in prose, used
to compare the two call sites of the recovery pipeline. -/
def proseWrappedObject : String := "Note: \x7b\"title\": \"T\"\x7d end"

end AppPy

namespace AppPy

theorem data_append (a b : String) : (a ++ b).data = a.data ++ b.data := rfl

theorem length_eq_data (s : String) : s.length = s.data.length := rfl

theorem mem_pyRstripList {c : Char} {l : List Char} (h : c ∈ pyRstripList l) :
    c ∈ l := by
  unfold pyRstripList at h
  rw [List.mem_reverse] at h
  have := (List.dropWhile_sublist (l := l.reverse) pyWs).subset h
  rwa [List.mem_reverse] at this

theorem pyRstripList_append_singleton {l : List Char} {c : Char}
    (h : pyWs c = false) : pyRstripList (l ++ [c]) = l ++ [c] := by
  unfold pyRstripList
  rw [List.reverse_append]
  simp [List.dropWhile_cons, h]

/-- Every character of a sanitized filename passes the sanitization filter. -/
theorem sanitizeFilename_chars (s : String) :
    ∀ c ∈ (sanitizeFilename s).data, sanitizeKeep c = true := by
  intro c hc
  unfold sanitizeFilename at hc
  by_cases h : pyEndsWith (pyRstrip ⟨s.data.filter sanitizeKeep⟩) ".pdf" = true
  · simp only [h, if_pos] at hc
    have := mem_pyRstripList (l := s.data.filter sanitizeKeep) hc
    exact List.of_mem_filter this
  · simp only [h, if_neg, Bool.not_eq_true] at hc
    rw [data_append] at hc
    rcases List.mem_append.mp hc with h1 | h2
    · have := mem_pyRstripList (l := s.data.filter sanitizeKeep) h1
      exact List.of_mem_filter this
    · fin_cases h2 <;> decide

/-- A sanitized filename ends with `".pdf"`. -/
theorem sanitizeFilename_endsWith (s : String) :
    pyEndsWith (sanitizeFilename s) ".pdf" = true := by
  unfold sanitizeFilename
  by_cases h : pyEndsWith (pyRstrip ⟨s.data.filter sanitizeKeep⟩) ".pdf" = true
  · simp [h]
  · simp only [h, if_neg, Bool.not_eq_true]
    unfold pyEndsWith
    rw [List.isSuffixOf_iff_suffix, data_append]
    exact List.suffix_append _ _

/-- A sanitized filename ends in the character `f`. -/
theorem sanitizeFilename_data (s : String) :
    ∃ l, (sanitizeFilename s).data = l ++ ['f'] := by
  have h := sanitizeFilename_endsWith s
  unfold pyEndsWith at h
  rw [List.isSuffixOf_iff_suffix] at h
  rcases h with ⟨pre, hpre⟩
  refine ⟨pre ++ ['.', 'p', 'd'], ?_⟩
  rw [← hpre]
  simp

/-- A string untouched by the filter and the trailing strip, already
ending in `".pdf"`, is a fixed point of the sanitizer. -/
theorem sanitizeFilename_of_fixed (y : String)
    (hfilter : y.data.filter sanitizeKeep = y.data)
    (hrstrip : pyRstripList y.data = y.data)
    (hend : pyEndsWith y ".pdf" = true) : sanitizeFilename y = y := by
  have hkept : pyRstrip ⟨y.data.filter sanitizeKeep⟩ = y := by
    show (⟨pyRstripList (y.data.filter sanitizeKeep)⟩ : String) = y
    rw [hfilter, hrstrip]
  unfold sanitizeFilename
  rw [hkept, if_pos hend]

/-- Sanitization is idempotent. -/
theorem sanitizeFilename_idem (s : String) :
    sanitizeFilename (sanitizeFilename s) = sanitizeFilename s := by
  have hfilter : (sanitizeFilename s).data.filter sanitizeKeep =
      (sanitizeFilename s).data :=
    List.filter_eq_self.mpr (sanitizeFilename_chars s)
  have hrstrip : pyRstripList (sanitizeFilename s).data =
      (sanitizeFilename s).data := by
    rcases sanitizeFilename_data s with ⟨l, hl⟩
    rw [hl]
    exact pyRstripList_append_singleton (by decide)
  exact sanitizeFilename_of_fixed _ hfilter hrstrip (sanitizeFilename_endsWith s)

/-- While the running count stays within the ceiling, the write loop
writes every chunk and succeeds. -/
theorem ingestLoop_success (chunks : List Nat) :
    ∀ fs w, fs + chunks.sum ≤ sizeLimit →
      ingestLoop chunks fs w = .success (fs + chunks.sum) (w + chunks.sum) true := by
  induction chunks with
  | nil => intro fs w _; simp [ingestLoop]
  | cons c rest ih =>
    intro fs w h
    simp only [List.sum_cons] at h ⊢
    have hle : ¬ sizeLimit < fs + c := by omega
    simp only [ingestLoop, if_neg hle]
    rw [ih (fs + c) (w + c) (by omega)]
    congr 1 <;> omega

/-- When the total exceeds the ceiling the write loop aborts with 413 and
deletes the file. -/
theorem ingestLoop_overflow (chunks : List Nat) :
    ∀ fs w, fs ≤ sizeLimit → sizeLimit < fs + chunks.sum →
      ∃ w', ingestLoop chunks fs w = .failure 413 w' false := by
  induction chunks with
  | nil =>
    intro fs w hle h
    simp only [List.sum_nil] at h
    omega
  | cons c rest ih =>
    intro fs w hle h
    simp only [List.sum_cons] at h
    by_cases hov : sizeLimit < fs + c
    · exact ⟨w, by simp [ingestLoop, hov]⟩
    · have := ih (fs + c) (w + c) (by omega) (by omega)
      simpa [ingestLoop, hov] using this

/-- Loop invariant: the bytes written equal the counted size and stay
within the ceiling. -/
theorem ingestLoop_written_le (chunks : List Nat) :
    ∀ fs w, w = fs → fs ≤ sizeLimit →
      bytesWrittenOf (ingestLoop chunks fs w) ≤ sizeLimit := by
  induction chunks with
  | nil => intro fs w hw hle; simpa [ingestLoop, bytesWrittenOf, hw] using hle
  | cons c rest ih =>
    intro fs w hw hle
    by_cases hov : sizeLimit < fs + c
    · simpa [ingestLoop, hov, bytesWrittenOf, hw] using hle
    · simp only [ingestLoop, if_neg hov]
      exact ih (fs + c) (w + c) (by omega) (by omega)

/-- On the failure path the written bytes are exactly the sum of the
chunks before the overflowing one. -/
theorem ingestLoop_failure_decomp (chunks : List Nat) :
    ∀ fs w st w' b, ingestLoop chunks fs w = .failure st w' b →
      ∃ pre c post, chunks = pre ++ c :: post ∧ w' = w + pre.sum ∧
        sizeLimit < fs + pre.sum + c := by
  induction chunks with
  | nil => intro fs w st w' b h; simp [ingestLoop] at h
  | cons c rest ih =>
    intro fs w st w' b h
    by_cases hov : sizeLimit < fs + c
    · simp only [ingestLoop, if_pos hov, UploadResult.failure.injEq] at h
      exact ⟨[], c, rest, rfl, by simpa using h.2.1.symm, by simpa using hov⟩
    · simp only [ingestLoop, if_neg hov] at h
      rcases ih (fs + c) (w + c) st w' b h with ⟨pre, c', post, h1, h2, h3⟩
      refine ⟨c :: pre, c', post, ?_, ?_, ?_⟩
      · rw [h1, List.cons_append]
      · simp only [List.sum_cons]
        omega
      · simp only [List.sum_cons]
        omega

end AppPy

open AppPy

/-- Claim C3: a stream of chunks summing to exactly 50 MiB is ingested
successfully (the file remains on disk with that size), while a stream
summing to more than 50 MiB aborts with a 413 `SizeLimitExceeded` failure
and leaves no file at the target path. -/
theorem C3_upload_size_boundary (chunks : List Nat)
    (hchunks : ∀ c ∈ chunks, 0 < c ∧ c ≤ chunkSize) :
    (chunks.sum = sizeLimit →
      uploadIngest chunks = .success sizeLimit sizeLimit true) ∧
    (sizeLimit < chunks.sum →
      ∃ w, uploadIngest chunks = .failure 413 w false) := by
  constructor
  · intro h
    have hle : 0 + chunks.sum ≤ sizeLimit := by omega
    have hs := ingestLoop_success chunks 0 0 hle
    rw [Nat.zero_add, h] at hs
    exact hs
  · intro h
    exact ingestLoop_overflow chunks 0 0 (by omega) (by omega)

/-- Witness for C3: 6400 chunks of 8 KiB sum to exactly 50 MiB and
succeed; one extra byte aborts with 413 and no file on disk. -/
theorem C3_upload_size_boundary_witness :
    uploadIngest (List.replicate 6400 8192) = .success sizeLimit sizeLimit true ∧
    ∃ w, uploadIngest (List.replicate 6400 8192 ++ [1]) = .failure 413 w false := by
  have hmem : ∀ c ∈ List.replicate 6400 8192, 0 < c ∧ c ≤ chunkSize := by
    intro c hc
    rw [List.eq_of_mem_replicate hc]
    decide
  have hmem2 : ∀ c ∈ List.replicate 6400 8192 ++ [1], 0 < c ∧ c ≤ chunkSize := by
    intro c hc
    rcases List.mem_append.mp hc with h | h
    · exact hmem c h
    · simp only [List.mem_singleton] at h
      rw [h]; decide
  have hsum : (List.replicate 6400 8192).sum = sizeLimit := by
    rw [List.sum_replicate, smul_eq_mul]
    norm_num [sizeLimit]
  constructor
  · exact (C3_upload_size_boundary _ hmem).1 hsum
  · refine (C3_upload_size_boundary _ hmem2).2 ?_
    rw [List.sum_append, hsum]
    norm_num [sizeLimit]

/-- Claim C10: the size check happens after counting a chunk but before
writing it, so the bytes ever written to the target file never exceed
50 MiB — on the failure path the bytes written are the sum of the chunks
strictly before the one that pushed the running count over the ceiling. -/
theorem C10_write_barrier (chunks : List Nat) :
    bytesWrittenOf (uploadIngest chunks) ≤ sizeLimit ∧
    (∀ st w b, uploadIngest chunks = .failure st w b →
      ∃ pre c post, chunks = pre ++ c :: post ∧ w = pre.sum ∧
        sizeLimit < pre.sum + c) := by
  constructor
  · exact ingestLoop_written_le chunks 0 0 rfl (by omega)
  · intro st w b h
    rcases ingestLoop_failure_decomp chunks 0 0 st w b h with
      ⟨pre, c, post, h1, h2, h3⟩
    exact ⟨pre, c, post, h1, by omega, by omega⟩

/-- Witness for C10: a single over-large chunk is counted but never
written. -/
theorem C10_write_barrier_witness :
    bytesWrittenOf (uploadIngest [52428801]) ≤ sizeLimit ∧
    ∃ pre c post, ([52428801] : List Nat) = pre ++ c :: post ∧
      (0 : Nat) = pre.sum ∧ sizeLimit < pre.sum + c := by
  refine ⟨(C10_write_barrier [52428801]).1, ?_⟩
  exact (C10_write_barrier [52428801]).2 413 0 false (by decide)

namespace AppPy

/-- Truncation behavior of `truncateField` on both sides of the cap. -/
theorem truncateField_spec (s : String) (L : Nat) :
    (L < s.length →
      (truncateField s L).length = L + 3 ∧
      pyEndsWith (truncateField s L) "..." = true) ∧
    (s.length ≤ L → truncateField s L = s) := by
  constructor
  · intro h
    unfold truncateField
    rw [if_pos h]
    constructor
    · show (pyTake s L ++ "...").data.length = L + 3
      rw [data_append]
      simp only [List.length_append]
      show (s.data.take L).length + 3 = L + 3
      rw [List.length_take]
      have : L ≤ s.data.length := Nat.le_of_lt h
      omega
    · unfold pyEndsWith
      rw [List.isSuffixOf_iff_suffix, data_append]
      exact List.suffix_append _ _
  · intro h
    unfold truncateField
    rw [if_neg (by omega)]

end AppPy

/-- Claim C4: truncation law — a value longer than its cap `L` finalizes
to length exactly `L + 3` ending in the ellipsis marker `"..."`; a value
of length at most `L` is unchanged. -/
theorem C4_truncation_law (s : String) (L : Nat) :
    (L < s.length →
      (truncateField s L).length = L + 3 ∧
      pyEndsWith (truncateField s L) "..." = true) ∧
    (s.length ≤ L → truncateField s L = s) :=
  truncateField_spec s L

/-- Witness for C4: a 501-character value truncates to 503 characters
with the ellipsis suffix; a short value is unchanged. -/
theorem C4_truncation_law_witness :
    ((truncateField ⟨List.replicate 501 'a'⟩ 500).length = 503 ∧
      pyEndsWith (truncateField ⟨List.replicate 501 'a'⟩ 500) "..." = true) ∧
    truncateField "ab" 300 = "ab" := by
  constructor
  · refine (C4_truncation_law ⟨List.replicate 501 'a'⟩ 500).1 ?_
    show 500 < (List.replicate 501 'a').length
    rw [List.length_replicate]
    omega
  · exact (C4_truncation_law "ab" 300).2 (by decide)

/-- Claim C6: on the raw model text `"insight: Markets are
shifting\nrecommendation: diversify holdings"` (no braces at all) the
heuristic line scan yields exactly the mapping with insight
`"Markets are shifting"` and recommendation `"diversify holdings"`. -/
theorem C6_heuristic_scan_scenario :
    heuristicScan "insight: Markets are shifting\nrecommendation: diversify holdings" =
      ("Markets are shifting", "diversify holdings") := by
  decide

namespace AppPy

/-- The enumerate loop preserves the conversation length. -/
theorem enhanceFrom_length (k : Nat) (conv : List Exchange) :
    (enhanceFrom k conv).length = conv.length := by
  induction conv generalizing k with
  | nil => rfl
  | cons e rest ih => simp [enhanceFrom, ih]

/-- Element-wise description of the enumerate loop: the item at offset
`i` is backfilled with index `k + i`. -/
theorem enhanceFrom_get (conv : List Exchange) :
    ∀ (k i : Nat) (h : i < conv.length),
      (enhanceFrom k conv).get ⟨i, by rw [enhanceFrom_length]; exact h⟩ =
        backfill (k + i) (conv.get ⟨i, h⟩) := by
  induction conv with
  | nil => intro k i h; exact absurd h (by simp)
  | cons e rest ih =>
    intro k i h
    cases i with
    | zero => rfl
    | succ j =>
      have hj : j < rest.length := by simpa using h
      have := ih (k + 1) j hj
      simpa [enhanceFrom, List.get, Nat.add_assoc, Nat.add_comm 1 j] using this

end AppPy

/-- Claim C7: an exchange at index `i` that lacks a timestamp after
recovery receives the synthesized timestamp built from
`floor(i*25/60)` as zero-padded two-digit minutes and `(i*25) mod 60`
as zero-padded two-digit seconds, separated by a colon. -/
theorem C7_timestamp_backfill (conv : List Exchange) (i : Nat)
    (h : i < conv.length)
    (hmiss : (conv.get ⟨i, h⟩).timestamp = none) :
    ∃ h2 : i < (enhanceConversation conv).length,
      ((enhanceConversation conv).get ⟨i, h2⟩).timestamp =
        some ⟨pad2 (i * 25 / 60) ++ ':' :: pad2 (i * 25 % 60)⟩ := by
  have hlen : i < (enhanceConversation conv).length := by
    unfold enhanceConversation
    rw [enhanceFrom_length]
    exact h
  refine ⟨hlen, ?_⟩
  have hg := enhanceFrom_get conv 0 i h
  unfold enhanceConversation
  rw [hg]
  unfold backfill
  rw [hmiss]
  simp [synthTimestamp, Nat.zero_add]

/-- Witness for C7: in a four-exchange conversation whose last exchange
lacks a timestamp, index 3 receives `"01:15"`. -/
theorem C7_timestamp_backfill_witness :
    ∃ h2 : 3 < (enhanceConversation
      [⟨"Alex", "a", some "00:00"⟩, ⟨"Sam", "b", some "00:25"⟩,
       ⟨"Alex", "c", some "00:50"⟩, ⟨"Sam", "d", none⟩]).length,
      ((enhanceConversation
        [⟨"Alex", "a", some "00:00"⟩, ⟨"Sam", "b", some "00:25"⟩,
         ⟨"Alex", "c", some "00:50"⟩, ⟨"Sam", "d", none⟩]).get ⟨3, h2⟩).timestamp =
        some "01:15" := by
  obtain ⟨h2, he⟩ := C7_timestamp_backfill
    [⟨"Alex", "a", some "00:00"⟩, ⟨"Sam", "b", some "00:25"⟩,
     ⟨"Alex", "c", some "00:50"⟩, ⟨"Sam", "d", none⟩] 3 (by decide) rfl
  exact ⟨h2, he.trans (by decide)⟩

namespace AppPy

/-- The digits produced by the fuel-driven renderer are decimal digit
characters, and there is at least one of them. -/
theorem natDigitsAux_spec :
    ∀ fuel n, n < fuel →
      (natDigitsAux fuel n).all Char.isDigit = true ∧
      1 ≤ (natDigitsAux fuel n).length := by
  intro fuel
  induction fuel with
  | zero => intro n h; omega
  | succ f ih =>
    intro n h
    by_cases h10 : n < 10
    · constructor
      · simp only [natDigitsAux, if_pos h10, List.all_cons, List.all_nil,
          Bool.and_true]
        interval_cases n <;> decide
      · simp [natDigitsAux, if_pos h10]
    · have hdiv : n / 10 < n := Nat.div_lt_self (by omega) (by omega)
      have hrec := ih (n / 10) (by omega)
      have hmod : n % 10 < 10 := Nat.mod_lt _ (by omega)
      constructor
      · simp only [natDigitsAux, if_neg h10, List.all_append, List.all_cons,
          List.all_nil, Bool.and_true, hrec.1, Bool.true_and]
        generalize n % 10 = m at hmod
        interval_cases m <;> decide
      · simp only [natDigitsAux, if_neg h10, List.length_append,
          List.length_cons, List.length_nil]
        omega

/-- `pad2` always produces at least two characters, all digits. -/
theorem pad2_spec (n : Nat) :
    (pad2 n).all Char.isDigit = true ∧ 2 ≤ (pad2 n).length := by
  by_cases h10 : n < 10
  · constructor
    · simp only [pad2, if_pos h10, List.all_cons, List.all_nil, Bool.and_true]
      rw [Bool.and_eq_true]
      refine ⟨by decide, ?_⟩
      interval_cases n <;> decide
    · simp [pad2, if_pos h10]
  · have hdiv : n / 10 < n := Nat.div_lt_self (by omega) (by omega)
    have hlo := natDigitsAux_spec n (n / 10) (by omega)
    have hmod : n % 10 < 10 := Nat.mod_lt _ (by omega)
    constructor
    · simp only [pad2, if_neg h10, natDigits, natDigitsAux, if_neg h10,
        List.all_append, List.all_cons, List.all_nil, Bool.and_true, hlo.1,
        Bool.true_and]
      generalize n % 10 = m at hmod
      interval_cases m <;> decide
    · simp only [pad2, if_neg h10, natDigits, natDigitsAux, if_neg h10,
        List.length_append, List.length_cons, List.length_nil]
      omega

/-- A digit character is not a colon. -/
theorem no_colon_of_all_digit {l : List Char} (h : l.all Char.isDigit = true) :
    ∀ c ∈ l, ¬ c = ':' := by
  intro c hc heq
  have := List.all_eq_true.mp h c hc
  rw [heq] at this
  exact absurd this (by decide)

/-- Splitting at the first colon of `m ++ ':' :: r` recovers `(m, r)` when
`m` is colon-free. -/
theorem splitAtColon_append (m r : List Char) (hm : ∀ c ∈ m, ¬ c = ':') :
    splitAtColon (m ++ ':' :: r) = some (m, r) := by
  induction m with
  | nil => simp [splitAtColon]
  | cons c cs ih =>
    have hc : ¬ c = ':' := hm c (by simp)
    have ih' := ih (fun d hd => hm d (by simp [hd]))
    simp only [List.cons_append, splitAtColon, if_neg hc]
    rw [show cs.append (':' :: r) = cs ++ ':' :: r from rfl, ih']
    rfl

/-- For a seconds value below 60, `pad2` yields exactly two digit
characters whose decimal value is the seconds value. -/
theorem pad2_seconds (sec : Nat) (h : sec < 60) :
    (pad2 sec).length = 2 ∧ twoDigitVal (pad2 sec) = sec := by
  interval_cases sec <;> exact ⟨by decide, by decide⟩

/-- Every synthesized timestamp is a well-formed `"MM:SS"` string. -/
theorem synthTimestamp_wellFormed (i : Nat) :
    isWellFormedMMSS (synthTimestamp i) = true := by
  have hsec : i * 25 % 60 < 60 := Nat.mod_lt _ (by omega)
  have hm := pad2_spec (i * 25 / 60)
  have hs := pad2_spec (i * 25 % 60)
  have hsv := pad2_seconds (i * 25 % 60) hsec
  have hsplit : splitAtColon (synthTimestamp i).data =
      some (pad2 (i * 25 / 60), pad2 (i * 25 % 60)) := by
    show splitAtColon (pad2 (i * 25 / 60) ++ ':' :: pad2 (i * 25 % 60)) = _
    exact splitAtColon_append _ _ (no_colon_of_all_digit hm.1)
  unfold isWellFormedMMSS
  rw [hsplit]
  simp only [Bool.and_eq_true, decide_eq_true_eq]
  exact ⟨⟨⟨⟨hm.2, hm.1⟩, hsv.1⟩, hs.1⟩, by omega⟩

end AppPy

/-- Claim C8 (amended): in the enhanced conversation of the success path,
every exchange that lacked a timestamp after recovery carries the
synthesized, well-formed `"MM:SS"` timestamp for its position, while an
exchange whose recovered timestamp is present keeps it unchanged and
unvalidated. -/
theorem C8_amended_timestamps (conv : List Exchange) (i : Nat)
    (h : i < conv.length) :
    ∃ h2 : i < (enhanceConversation conv).length,
      ((conv.get ⟨i, h⟩).timestamp = none →
        ((enhanceConversation conv).get ⟨i, h2⟩).timestamp =
          some (synthTimestamp i) ∧
        isWellFormedMMSS (synthTimestamp i) = true) ∧
      (∀ t, (conv.get ⟨i, h⟩).timestamp = some t →
        ((enhanceConversation conv).get ⟨i, h2⟩).timestamp = some t) := by
  have hlen : i < (enhanceConversation conv).length := by
    unfold enhanceConversation
    rw [enhanceFrom_length]
    exact h
  refine ⟨hlen, ?_, ?_⟩
  · intro hmiss
    have hg := enhanceFrom_get conv 0 i h
    unfold enhanceConversation
    rw [hg]
    unfold backfill
    rw [hmiss]
    exact ⟨by simp [Nat.zero_add], synthTimestamp_wellFormed i⟩
  · intro t ht
    have hg := enhanceFrom_get conv 0 i h
    unfold enhanceConversation
    rw [hg]
    unfold backfill
    rw [ht]
    exact ht

/-- Witness for the amended C8. -/
theorem C8_amended_timestamps_witness :
    isWellFormedMMSS (synthTimestamp 0) = true ∧
    ∃ h2 : 0 < (enhanceConversation [⟨"Alex", "x", none⟩]).length,
      ((enhanceConversation [⟨"Alex", "x", none⟩]).get ⟨0, h2⟩).timestamp =
        some (synthTimestamp 0) := by
  obtain ⟨h2, hnone, _⟩ :=
    C8_amended_timestamps [⟨"Alex", "x", none⟩] 0 (by decide)
  obtain ⟨heq, hwf⟩ := hnone rfl
  exact ⟨hwf, h2, heq⟩

/-- Counterexample to C8 as stated: a parsed model output whose exchange
carries the timestamp `"not-a-time"` flows through the success path
unchanged, so the returned script contains a timestamp that is not a
well-formed `"MM:SS"` string. -/
theorem C8_counterexample :
    generatePodcast (some "models/gemini-pro") "some text" "i" "r"
        (some (some ⟨true, true, some [⟨"Alex", "hi", some "not-a-time"⟩]⟩)) =
      .okScript [⟨"Alex", "hi", some "not-a-time"⟩] ∧
    isWellFormedMMSS "not-a-time" = false := by
  constructor
  · decide
  · decide

/-- Claim C2 (code behavior at the failing input): a whitespace-only text
sent to the insight or podcast endpoint is NOT rejected with a 400 —
the `HTTPException(400, "Text cannot be empty")` is caught by the generic
`except Exception` handler (lines 308 and 490 have no preceding
`except HTTPException: raise`), so both endpoints return a 500 response
carrying a fallback payload. -/
theorem C2_empty_text_swallowed_400 :
    getInsights (some "models/gemini-pro") "   " (some "anything") =
      .json 500 (some "Failed to generate insights: 400: Text cannot be empty")
        "Unable to analyze the selected text due to a processing error."
        "Please try selecting a different text segment or refresh the page." ∧
    generatePodcast (some "models/gemini-pro") "   " "ins" "rec" none =
      .fallback 500 "Failed to generate podcast: 400: Text cannot be empty"
        (errFallbackConversation "ins" "rec") := by
  constructor
  · decide
  · decide

/-- Claim C5 (amended): brace-slicing happens at the insight call site
only — when the stripped, fence-stripped text does not begin with an
opening brace and has a first opening and a later closing brace, the
insight candidate handed to the strict parser is exactly the inclusive
substring between them, while the podcast candidate is the fence-stripped
text unchanged (no slicing). -/
theorem C5_amended_brace_slicing (s : String) (st en : Nat)
    (hb : pyStartsWith (pyStrip (stripFences (pyStrip s))) "\x7b" = false)
    (hf : pyFindChar (pyStrip (stripFences (pyStrip s))) '\x7b' = some st)
    (hr : pyRfindChar (pyStrip (stripFences (pyStrip s))) '\x7d' = some en)
    (hlt : st < en + 1) :
    insightCandidate s =
      ⟨((pyStrip (stripFences (pyStrip s))).data.drop st).take (en + 1 - st)⟩ ∧
    podcastCandidate s = stripFences (pyStrip s) := by
  constructor
  · unfold insightCandidate braceSlice
    rw [hf, hr]
    simp [hb, hlt]
  · rfl

/-- Witness for the amended C5, at the concrete prose-wrapped object. -/
theorem C5_amended_brace_slicing_witness :
    insightCandidate proseWrappedObject =
      ⟨((pyStrip (stripFences (pyStrip proseWrappedObject))).data.drop 6).take
        (19 + 1 - 6)⟩ ∧
    podcastCandidate proseWrappedObject =
      stripFences (pyStrip proseWrappedObject) :=
  C5_amended_brace_slicing proseWrappedObject 6 19 (by decide) (by decide)
    (by decide) (by decide)

/-- Counterexample to C5 as stated: for a raw text that does not begin
with an opening brace but contains a valid object between its first
opening and last closing brace, the insight call site recovers the
object's fields, but the podcast call site re-attempts the strict parse
on the unsliced text and fails — the two call sites do not behave alike. -/
theorem C5_counterexample :
    pyStartsWith proseWrappedObject "\x7b" = false ∧
    flatJsonParse (insightCandidate proseWrappedObject) =
      some [("title", "T")] ∧
    podcastCandidate proseWrappedObject = proseWrappedObject ∧
    flatJsonParse (podcastCandidate proseWrappedObject) = none := by
  refine ⟨by decide, by decide, by decide, by decide⟩

namespace AppPy

/-- A string whose length is positive is not the empty string. -/
theorem ne_empty_of_length_pos {s : String} (h : 0 < s.length) : s ≠ "" := by
  intro heq
  rw [heq] at h
  exact absurd h (by decide)

/-- The finalized field is never empty and respects its cap: either it is
within the cap, or it is exactly `cap + 3` characters ending in the
ellipsis marker. -/
theorem finalizeField_spec (v d : String) (cap : Nat) (hd : d ≠ "")
    (hdlen : d.length ≤ cap) :
    finalizeField v d cap ≠ "" ∧
    ((finalizeField v d cap).length ≤ cap ∨
      ((finalizeField v d cap).length = cap + 3 ∧
        pyEndsWith (finalizeField v d cap) "..." = true)) := by
  unfold finalizeField
  by_cases hw : pyStrip v = ""
  · rw [if_pos hw]
    have ht := (truncateField_spec d cap).2 hdlen
    rw [ht]
    exact ⟨hd, Or.inl hdlen⟩
  · simp only [if_neg hw]
    by_cases hc : cap < (pyStrip v).length
    · have ht := (truncateField_spec (pyStrip v) cap).1 hc
      refine ⟨?_, Or.inr ht⟩
      apply ne_empty_of_length_pos
      omega
    · have ht := (truncateField_spec (pyStrip v) cap).2 (by omega)
      rw [ht]
      exact ⟨hw, Or.inl (by omega)⟩

end AppPy

/-- Claim C1: the insight assembler always returns a record whose two
fields are non-empty and within their caps (500 and 300 characters before
the ellipsis suffix); an empty or missing recovered value is replaced by
the declared default, and an over-long value is truncated. -/
theorem C1_insight_invariant (raw : String) :
    ((assembleInsight raw).1 ≠ "" ∧ (assembleInsight raw).2 ≠ "") ∧
    ((assembleInsight raw).1.length ≤ 500 ∨
      ((assembleInsight raw).1.length = 503 ∧
        pyEndsWith (assembleInsight raw).1 "..." = true)) ∧
    ((assembleInsight raw).2.length ≤ 300 ∨
      ((assembleInsight raw).2.length = 303 ∧
        pyEndsWith (assembleInsight raw).2 "..." = true)) ∧
    (∀ i r : String,
      (pyStrip i = "" → (finalizeInsight i r).1 = defaultInsight) ∧
      (pyStrip r = "" → (finalizeInsight i r).2 = defaultRecommendation) ∧
      (500 < (pyStrip i).length →
        (finalizeInsight i r).1 = pyTake (pyStrip i) 500 ++ "...") ∧
      (300 < (pyStrip r).length →
        (finalizeInsight i r).2 = pyTake (pyStrip r) 300 ++ "...")) ∧
    assembleInsight raw =
      finalizeInsight (extractInsight raw).1 (extractInsight raw).2 := by
  have h1 := finalizeField_spec (extractInsight raw).1 defaultInsight 500
    (by decide) (by decide)
  have h2 := finalizeField_spec (extractInsight raw).2 defaultRecommendation 300
    (by decide) (by decide)
  simp only [assembleInsight, finalizeInsight]
  refine ⟨⟨h1.1, h2.1⟩, h1.2, h2.2, ?_, trivial⟩
  intro i r
  refine ⟨?_, ?_, ?_, ?_⟩
  · intro hi
    show finalizeField i defaultInsight 500 = defaultInsight
    unfold finalizeField
    rw [if_pos hi]
    exact (truncateField_spec defaultInsight 500).2 (by decide)
  · intro hr
    show finalizeField r defaultRecommendation 300 = defaultRecommendation
    unfold finalizeField
    rw [if_pos hr]
    exact (truncateField_spec defaultRecommendation 300).2 (by decide)
  · intro hi
    show finalizeField i defaultInsight 500 = pyTake (pyStrip i) 500 ++ "..."
    unfold finalizeField
    have hne : pyStrip i ≠ "" := ne_empty_of_length_pos (by omega)
    simp only [if_neg hne]
    unfold truncateField
    rw [if_pos hi]
  · intro hr
    show finalizeField r defaultRecommendation 300 = pyTake (pyStrip r) 300 ++ "..."
    unfold finalizeField
    have hne : pyStrip r ≠ "" := ne_empty_of_length_pos (by omega)
    simp only [if_neg hne]
    unfold truncateField
    rw [if_pos hr]

/-- Witness for C1: empty model output yields the defaults, and a
whitespace-only recovered value is replaced by the default. -/
theorem C1_insight_invariant_witness :
    (assembleInsight "").1 ≠ "" ∧ (assembleInsight "").2 ≠ "" ∧
    (finalizeInsight "  " "x").1 = defaultInsight :=
  ⟨(C1_insight_invariant "").1.1, (C1_insight_invariant "").1.2,
    (((C1_insight_invariant "").2.2.2.1 "  " "x").1 (by decide))⟩

/-- Claim C9: filename sanitization (keep only alphanumerics and the
characters `.`, `_`, `-`; trim trailing whitespace; append the required
`".pdf"` extension if absent) is idempotent: applying it twice yields the
same string as applying it once, for every input string. -/
theorem C9_sanitize_idempotent (x : String) :
    sanitizeFilename (sanitizeFilename x) = sanitizeFilename x :=
  sanitizeFilename_idem x
